import Mathlib

/-!
# Verification of the rtprompt line-editing and rendering engine

Shallow embedding of the Go package `coxley/rtprompt` (files `rtprompt.go`,
`callbacks.go` and the newer unnamed variant of the prompt engine).  Go
strings are modeled byte-wise as `List Char` (all inputs of interest are
ASCII, where bytes and runes coincide); Go `int` values that can go negative
(cursor arithmetic) are modeled as `Int`; Go slice expressions that can
panic are modeled by `Option`-returning functions where `none` stands for a
runtime panic.
-/

namespace RTPrompt

/-! ## Go `strings` helpers used by the engine -/

/-- Go `strings.TrimRight(s, " ")`: drop the trailing run of spaces. -/
def trimRight (l : List Char) : List Char :=
  (l.reverse.dropWhile (fun c => decide (c = ' '))).reverse

/-- Go `strings.TrimLeft(s, " ")`: drop the leading run of spaces. -/
def trimLeft (l : List Char) : List Char :=
  l.dropWhile (fun c => decide (c = ' '))

/-- Go `strings.LastIndex(s, " ")`: greatest index of a space, or `-1`. -/
def lastIndexSpace : List Char → Int
  | [] => -1
  | c :: rest =>
    let r := lastIndexSpace rest
    if 0 ≤ r then r + 1
    else if c = ' ' then 0
    else -1

/-- Go `strings.Index(s, " ")`: least index of a space, or `-1`. -/
def indexSpace : List Char → Int
  | [] => -1
  | c :: rest =>
    if c = ' ' then 0
    else
      let r := indexSpace rest
      if r = -1 then -1 else r + 1

/-- Go `strings.Count(s, "\n")`. -/
def countNL (l : List Char) : Nat :=
  l.countP (fun c => decide (c = '\n'))

/-- Go `strings.ReplaceAll(s, "\n", "\n\r")`. -/
def crlf : List Char → List Char
  | [] => []
  | c :: rest => if c = '\n' then '\n' :: '\r' :: crlf rest else c :: crlf rest

/-- Go `strings.Repeat(s, n)` for a non-negative count. -/
def repeatStr (s : String) : Nat → String
  | 0 => ""
  | n + 1 => s ++ repeatStr s n

/-! ## The prompt state

Fields mirror the `Prompt` struct of the newer engine variant: `text` and
`pos` are the line buffer, `writtenLineCnt` tracks how many auxiliary lines
were painted, `debug` is the `Debug` flag.  The static `Prefix` and the
`Padding` configuration are passed separately where needed. -/

structure Prompt where
  text : List Char
  pos : Int
  writtenLineCnt : Nat
  debug : Bool
deriving Repr, DecidableEq

/-- Session-start prompt state: empty text, cursor 0, nothing painted. -/
def promptInit : Prompt := ⟨[], 0, 0, false⟩

/-! ## Rendering (`print`, newer variant)

Each operation returns the successor state together with the exact byte
stream written to the terminal (ANSI escapes spelled out), so that claims
about emitted output are statable. -/

/-- `Prompt.print(s, padding)`: paint `s` below the prompt.  Empty input
returns immediately; otherwise padding newlines, per-line clears, cursor
repositioning and the CRLF-rewritten body are emitted and
`writtenLineCnt` is raised to `max` of itself and `linecnt + padding`. -/
def printP (p : Prompt) (s : List Char) (padding : Nat) : Prompt × String :=
  if s = [] then (p, "")
  else
    let linecnt := countNL s
    let padOut := repeatStr "\n" padding
    let clearOut := "\x1b[2K" ++ repeatStr "\n\x1b[2K" linecnt
    let p1 : Prompt := { p with writtenLineCnt := max p.writtenLineCnt (linecnt + padding) }
    let upOut := "\x1b[" ++ toString (linecnt + padding) ++ "A" ++ "\x1b[s"
    let bodyOut := repeatStr "\n\r" padding ++ String.mk (crlf s) ++ "\x1b[u"
    (p1, padOut ++ clearOut ++ upOut ++ bodyOut)

/-! ## Cursor movement and editing

`cursorLeft`/`cursorRight` are total (they only move the recorded cursor);
`backspace`, `del` and `advance` contain Go slice expressions
(`p.text[:k]`, `p.text[k:]`) that panic when the index is out of range, so
they return `Option`, `none` standing for the panic. -/

/-- `Prompt.cursorLeft(n)`: no-op at position 0, otherwise move `n` left. -/
def cursorLeft (p : Prompt) (n : Int) : Prompt × String :=
  if p.pos = 0 then (p, "")
  else ({ p with pos := p.pos - n }, "\x1b[" ++ toString n ++ "D")

/-- `Prompt.cursorRight(n)`: no-op at end of text, otherwise move `n` right. -/
def cursorRight (p : Prompt) (n : Int) : Prompt × String :=
  if p.pos = (p.text.length : Int) then (p, "")
  else ({ p with pos := p.pos + n }, "\x1b[" ++ toString n ++ "C")

/-- `Prompt.backspace(n)`: delete `n` bytes behind the cursor.  Guards:
no-op when `n == 0` or `pos == 0`; the slice expressions `text[:pos-n]` and
`text[pos:]` panic (`none`) when out of range — the code does not clamp. -/
def backspace (p : Prompt) (n : Int) : Option (Prompt × String) :=
  if n = 0 then some (p, "")
  else if p.pos = 0 then some (p, "")
  else
    let oldPos := p.pos
    let newPos := oldPos - n
    if 0 ≤ newPos ∧ newPos ≤ (p.text.length : Int) ∧ 0 ≤ oldPos ∧ oldPos ≤ (p.text.length : Int) then
      let start := p.text.take newPos.toNat
      let rest := p.text.drop oldPos.toNat
      let p1 := cursorLeft p n
      some ({ p1.1 with text := start ++ rest, pos := newPos },
        p1.2 ++ "\x1b[s" ++ "\x1b[K" ++ String.mk rest ++ "\x1b[u")
    else none

/-- `Prompt.del(n)`: delete `n` bytes at the cursor.  No-op when `n == 0`
or `pos == len(text)`; `text[pos+n:]` panics (`none`) when out of range. -/
def del (p : Prompt) (n : Int) : Option (Prompt × String) :=
  if n = 0 then some (p, "")
  else if p.pos = (p.text.length : Int) then some (p, "")
  else
    if 0 ≤ p.pos ∧ p.pos ≤ (p.text.length : Int) ∧ 0 ≤ p.pos + n ∧ p.pos + n ≤ (p.text.length : Int) then
      let start := p.text.take p.pos.toNat
      let rest := p.text.drop (p.pos + n).toNat
      some ({ p with text := start ++ rest },
        "\x1b[s" ++ "\x1b[K" ++ String.mk rest ++ "\x1b[u")
    else none

/-- `Prompt.advance(s)`: insert `s` at the cursor.  At end of text appends
and advances by `len s`; in the middle splits, rewrites the tail, and moves
the cursor right by one via `cursorRight`. -/
def advance (p : Prompt) (s : List Char) : Option (Prompt × String) :=
  if s = [] then some (p, "")
  else if p.pos = (p.text.length : Int) then
    some ({ p with text := p.text ++ s, pos := p.pos + s.length }, String.mk s)
  else
    if 0 ≤ p.pos ∧ p.pos ≤ (p.text.length : Int) then
      let before := p.text.take p.pos.toNat
      let after := p.text.drop p.pos.toNat
      let p1 : Prompt := { p with text := before ++ s ++ after }
      let p2 := cursorRight p1 1
      some (p2.1, "\x1b[s" ++ "\x1b[K" ++ String.mk (s ++ after) ++ "\x1b[u" ++ p2.2)
    else none

/-! ## Word boundary queries -/

/-- Pure core of `Prompt.lastWordIndex`: `strings.LastIndex` of a space in
the right-space-trimmed prefix `text[:pos]`. -/
def lastWordIndexP (text : List Char) (pos : Nat) : Int :=
  lastIndexSpace (trimRight (text.take pos))

/-- `Prompt.lastWordIndex()`; the slice `p.text[:p.pos]` panics when the
cursor is out of range (`none`). -/
def lastWordIdx (p : Prompt) : Option Int :=
  if 0 ≤ p.pos ∧ p.pos ≤ (p.text.length : Int) then
    some (lastWordIndexP p.text p.pos.toNat)
  else none

/-- Pure core of `Prompt.nextWordIndex`, byte-faithful to the source
including the unreachable `i == -1` arm (subsumed by `i != 0`). -/
def nextWordIndexP (text : List Char) (pos : Nat) : Int :=
  let beforeLen : Int := ((text.take pos).length : Int)
  let fwd := text.drop pos
  let i := indexSpace fwd
  if i ≠ 0 then i + beforeLen
  else if i = -1 then 0
  else
    let trimmed := trimLeft fwd
    let spaceCnt : Int := (fwd.length : Int) - (trimmed.length : Int)
    indexSpace fwd + spaceCnt + beforeLen

/-- `Prompt.nextWordIndex()`; the slices panic when the cursor is out of
range (`none`). -/
def nextWordIdx (p : Prompt) : Option Int :=
  if 0 ≤ p.pos ∧ p.pos ≤ (p.text.length : Int) then
    some (nextWordIndexP p.text p.pos.toNat)
  else none

/-! ## Key routing (`handleKey`, newer variant)

Enter, Tab and Ctrl-C are handled by `readInput` before `handleKey` is
reached, so they do not appear here.  A key event is a `keyboard.KeyEvent`;
`altB`/`altF` are `KeyEsc` with rune `b`/`f`, `escOther` is `KeyEsc` with
any other rune, `ch c` is the default arm carrying rune `c`, and `otherKey`
is any unhandled key whose rune is zero. -/

inductive Key
  | altB | altF | escOther
  | arrowLeft | arrowRight
  | backKey | delKey
  | homeKey | endKey
  | ctrlU | ctrlK | ctrlW
  | spaceKey
  | ch (c : Char)
  | otherKey
deriving Repr, DecidableEq

/-- `Prompt.handleKey(key)` minus the session-control keys: dispatches to
the editing operations, then appends the debug dump when `Debug` is set.
`none` models a Go runtime panic inside an editing operation. -/
def handleKey (p : Prompt) (k : Key) : Option (Prompt × String) :=
  let step : Option (Prompt × String) :=
    match k with
    | .altB =>
      match lastWordIdx p with
      | none => none
      | some lwi => some (cursorLeft p (p.pos - lwi - 1))
    | .altF =>
      match nextWordIdx p with
      | none => none
      | some nwi =>
        let pr := printP p ("next word: " ++ toString nwi).toList 4
        let mv := cursorRight pr.1 (nwi - pr.1.pos + 1)
        some (mv.1, pr.2 ++ mv.2)
    | .escOther => some (p, "")
    | .arrowLeft => some (cursorLeft p 1)
    | .arrowRight => some (cursorRight p 1)
    | .backKey => backspace p 1
    | .delKey => del p 1
    | .homeKey => some (cursorLeft p p.pos)
    | .endKey => some (cursorRight p ((p.text.length : Int) - p.pos))
    | .ctrlU => backspace p p.pos
    | .ctrlK => del p ((p.text.length : Int) - p.pos)
    | .ctrlW =>
      match lastWordIdx p with
      | none => none
      | some lwi => backspace p (p.pos - lwi - 1)
    | .spaceKey => advance p [' ']
    | .ch c => if c = Char.ofNat 0 then some (p, "") else advance p [c]
    | .otherKey => some (p, "")
  match step with
  | none => none
  | some (p1, out) =>
    if p1.debug then
      let dbg := "text=" ++ String.mk p1.text ++ "\npos=" ++ toString p1.pos ++ "\n"
      let pr := printP p1 dbg.toList 15
      some (pr.1, out ++ pr.2)
    else some (p1, out)

/-- Run a sequence of key events from a state, keeping only the state
(`none` as soon as any key handler panics). -/
def runKeys (p : Prompt) : List Key → Option Prompt
  | [] => some p
  | k :: ks =>
    match handleKey p k with
    | none => none
    | some (p1, _) => runKeys p1 ks

/-! ## The asynchronous callback loop (older variant, `rtprompt.go`)

The `select` loop of `readInput` maintains `lastUpdate`, set to `now()`
each time a text change or Tab issues a new callback invocation, and drops
any arriving `cbResult` whose timestamp is `Before(lastUpdate)`.  Times are
abstracted to `Nat`; `rendered` accumulates the outputs actually passed to
`print`, most recent first. -/

structure LoopState where
  lastUpdate : Nat
  rendered : List String
deriving Repr, DecidableEq

/-- One observable event of the `readInput` select loop: a key event that
issues a callback invocation at time `t`, or the arrival of a callback
result stamped `ts`. -/
inductive LoopEvent
  | issue (t : Nat)
  | result (ts : Nat) (out : String)
deriving Repr, DecidableEq

/-- One iteration of the `select` loop: an issuance overwrites
`lastUpdate`; a result is rendered unless `res.ts.Before(lastUpdate)`. -/
def loopStep (st : LoopState) : LoopEvent → LoopState
  | .issue t => { st with lastUpdate := t }
  | .result ts out =>
    if ts < st.lastUpdate then st
    else { st with rendered := out :: st.rendered }

/-- Fold the loop over an event trace. -/
def loopRun (st : LoopState) : List LoopEvent → LoopState
  | [] => st
  | e :: es => loopRun (loopStep st e) es

/-- Loop state at session start: zero `lastUpdate`, nothing rendered. -/
def loopInit : LoopState := ⟨0, []⟩

/-- The timestamp of the most recently issued invocation in a trace (the
zero time when none has been issued), defined independently of the loop. -/
def lastIssued (tr : List LoopEvent) : Nat :=
  tr.foldl (fun acc e => match e with | .issue t => t | .result _ _ => acc) 0

/-! ## Exit paths and terminal restoration (newer variant, `readInput`)

`readInput` registers, in order: `defer term.Restore`, `defer cleanupFunc`
(whose body itself calls `term.Restore`, clears the written lines and
prints a newline), and `defer keyboard.Close`.  On a normal return the
deferred actions run LIFO; on Ctrl-C `cleanupFunc` is called inline and
SIGINT is re-raised to the process, whose default disposition terminates it
before any deferred action can run. -/

inductive TermAction
  | restoreTerm | clearScroll | finalNewline | closeKeys | raiseInterrupt
deriving Repr, DecidableEq

/-- Body of `cleanupFunc`: restore the terminal, scroll past the written
lines, print a final newline. -/
def cleanupActs : List TermAction := [.restoreTerm, .clearScroll, .finalNewline]

/-- The deferred actions of `readInput` in registration order. -/
def deferredActs : List (List TermAction) := [[.restoreTerm], cleanupActs, [.closeKeys]]

/-- Deferred actions as executed on a normal return (LIFO). -/
def runDeferred : List TermAction := deferredActs.reverse.flatten

/-- The two exit paths of a session: Enter returns from `readInput`;
Ctrl-C re-raises SIGINT after calling `cleanupFunc` inline. -/
inductive ExitPath
  | enterExit | interruptExit
deriving Repr, DecidableEq

/-- The terminal actions performed on each exit path. -/
def exitActions : ExitPath → List TermAction
  | .enterExit => runDeferred
  | .interruptExit => cleanupActs ++ [.raiseInterrupt]

/-- How many times `term.Restore` runs on an exit path. -/
def restoreCount (pth : ExitPath) : Nat :=
  (exitActions pth).count .restoreTerm

/-! ## Callback resolution (`Wait` / `Start`) -/

/-- The three-argument callback type of the newer variant. -/
def Callback : Type := String → Bool → Bool → String

/-- The two-argument callback type of the older variant. -/
def CallbackOld : Type := String → Bool → String

/-- `Prompt.Wait`: a nil `Callback` is replaced by a constant function
returning the empty string before `readInput` starts. -/
def waitCallback (cb : Option Callback) : Callback :=
  match cb with
  | none => fun _ _ _ => ""
  | some f => f

/-- `Prompt.Start` (older variant): same nil-replacement for the
two-argument callback. -/
def startCallback (cb : Option CallbackOld) : CallbackOld :=
  match cb with
  | none => fun _ _ => ""
  | some f => f

/-! ## The ClosestMatch matcher callback (`callbacks.go`)

`ClosestMatch.CB()` builds a closure over `content` (the `Data` entries
joined as `title ++ delim ++ value`; map iteration order is unspecified so
`content` is a parameter), `topN` and `lastSelected`.  The external pieces
— the `closestmatch` ranking (`cm.ClosestN`) and the `fatih/color` sprint
functions — are collaborators outside this repository and appear as
function parameters. -/

/-- The delimiter `CB` uses to join titles with their ranking context. -/
def delim : String := "::CBDELIM::"

/-- `preproc`: `strings.Split(s, delim)[0]`, the title part of an entry. -/
def preproc (s : String) : String :=
  (s.splitOn delim).headD ""

/-- Configuration of a `ClosestMatch` callback after `CB()` applied its
defaults; the color sprint functions are external collaborators. -/
structure CMConfig where
  content : List String
  maxShown : Nat
  showInstructions : Bool
  instructions : String
  instrSprintln : String → String
  selectedSprint : String → String

/-- The mutable closure state of `CB()`: the cached `topN` ranking and the
`lastSelected` cycling index (`-1` = no selection). -/
structure CMState where
  topN : List String
  lastSelected : Int
deriving Repr, DecidableEq

/-- Closure state at `CB()` time: nil `topN`, `lastSelected = -1`. -/
def cmInit : CMState := ⟨[], -1⟩

/-- `ClosestMatch.joinLines(lines, preproc, selected)`: renders the shown
candidates, marking the selected one. -/
def joinLines (cfg : CMConfig) (lines : List String) (selected : Int) : String :=
  let header := if cfg.showInstructions then cfg.instrSprintln cfg.instructions else ""
  header ++ String.join (lines.mapIdx (fun i line =>
    let t := preproc line
    if i = 0 ∧ selected = -1 then t ++ "\n"
    else if selected > -1 ∧ (i : Int) = selected then
      cfg.selectedSprint t ++ " (selected)\n"
    else t ++ "\n"))

/-- One invocation of the callback returned by `ClosestMatch.CB()`.
`closestN` stands for `cm.ClosestN`.  The result is the successor closure
state, the rendered string, and the arguments passed to `OnSelect` (in
order); `none` models the Go panic of `topN[lastSelected]` when the index
is out of range. -/
def cbStep (cfg : CMConfig) (closestN : String → Nat → List String)
    (st : CMState) (inp : String) (tab enter : Bool) :
    Option (CMState × String × List String) :=
  if enter then
    if st.lastSelected ≠ -1 then
      if 0 ≤ st.lastSelected then
        match st.topN.get? st.lastSelected.toNat with
        | none => none
        | some sel => some (st, "", [preproc sel])
      else none
    else some (st, "", [inp])
  else
    let ls1 := if ¬ tab then -1 else st.lastSelected
    let ls2 :=
      if tab then
        if ls1 < (min cfg.content.length cfg.maxShown : Int) - 1 then ls1 + 1 else 0
      else ls1
    if cfg.content.length = 0 then some (⟨st.topN, ls2⟩, "", [])
    else
      let topN1 :=
        if inp = "" then cfg.content.take (min cfg.content.length cfg.maxShown)
        else if ¬ tab then closestN inp.toLower cfg.maxShown
        else st.topN
      some (⟨topN1, ls2⟩, joinLines cfg topN1 ls2, [])

/-- Iterate Tab invocations (empty input, `tab = true`, `enter = false`)
of the matcher callback, as `readInput` does on consecutive Tab presses. -/
def tabRun (cfg : CMConfig) (closestN : String → Nat → List String)
    (st : CMState) : Nat → Option CMState
  | 0 => some st
  | n + 1 =>
    match cbStep cfg closestN st "" true false with
    | none => none
    | some (st1, _, _) => tabRun cfg closestN st1 n

/-! ## Spec-side comparison definitions

These two definitions follow the specification's words (not the source)
and exist only to be compared against the source-derived definitions. -/

/-- Spec's words for `deleteBackward(n)`: removes `n` characters before
the cursor, no-op if `cursor == 0`, clamps `n` to `cursor`. -/
def backspaceSpec (p : Prompt) (n : Int) : Prompt :=
  if p.pos = 0 then p
  else
    let m := min n p.pos
    let text1 := p.text.take (p.pos - m).toNat ++ p.text.drop p.pos.toNat
    { p with text := text1, pos := p.pos - m }

/-- Spec's words for `wordBoundaryAfter()`: skip the run of spaces
directly at the cursor, then the index of the nearest space at or after it,
or end-of-text when none exists. -/
def nextWordIndexSpec (text : List Char) (pos : Nat) : Int :=
  let fwd := text.drop pos
  let trimmed := trimLeft fwd
  let skip := fwd.length - trimmed.length
  let i := indexSpace trimmed
  if i = -1 then (text.length : Int) else (pos : Int) + (skip : Int) + i

/-! ## Concrete fixtures for the matcher claims -/

/-- A candidate list of size 7, as in the tab-cycling property. -/
def content7 : List String :=
  ["cand1", "cand2", "cand3", "cand4", "cand5", "cand6", "cand7"]

/-- A ranking oracle that is never consulted by the runs below (Tab and
empty-input invocations never call `cm.ClosestN`). -/
def closestN0 : String → Nat → List String := fun _ _ => []

/-- Matcher configuration with 7 candidates and `MaxShown = 7`. -/
def cfg7 : CMConfig := ⟨content7, 7, false, "", id, id⟩

/-- Matcher configuration with an empty candidate set (`Data` empty), as
in the empty-candidate example program. -/
def cfgE : CMConfig :=
  ⟨[], 7, true,
    "Use <TAB> and <ENTER> to select from below. Otherwise press <ENTER> when ready",
    id, id⟩

/-! ## Helper lemmas on the callback loop -/

theorem loopRun_append (st : LoopState) (tr : List LoopEvent) (e : LoopEvent) :
    loopRun st (tr ++ [e]) = loopStep (loopRun st tr) e := by
  induction tr generalizing st with
  | nil => simp [loopRun]
  | cons x xs ih => simp [loopRun, ih]

theorem loopRun_lastUpdate (st : LoopState) (tr : List LoopEvent) :
    (loopRun st tr).lastUpdate =
      tr.foldl (fun acc e => match e with | .issue t => t | .result _ _ => acc)
        st.lastUpdate := by
  induction tr generalizing st with
  | nil => rfl
  | cons e es ih =>
    cases e with
    | issue t => simp [loopRun, loopStep, ih, List.foldl]
    | result ts out =>
      show (loopRun (loopStep st (.result ts out)) es).lastUpdate = _
      rw [ih]
      have h1 : (loopStep st (.result ts out)).lastUpdate = st.lastUpdate := by
        simp only [loopStep]
        split <;> rfl
      rw [h1]
      rfl

/-! ## Helper lemmas on the space-index searches -/

theorem indexSpace_cases (l : List Char) : indexSpace l = -1 ∨ 0 ≤ indexSpace l := by
  induction l with
  | nil => exact Or.inl rfl
  | cons c rest ih =>
    simp only [indexSpace]
    split_ifs with h1 h2
    · right; omega
    · exact Or.inl rfl
    · rcases ih with h | h
      · exact absurd h h2
      · right; omega

theorem indexSpace_neg_iff (l : List Char) : indexSpace l = -1 ↔ ' ' ∉ l := by
  induction l with
  | nil => simp [indexSpace]
  | cons c rest ih =>
    simp only [indexSpace, List.mem_cons]
    split_ifs with h1 h2
    · constructor
      · intro h; exact absurd h (by decide)
      · intro h; exact absurd (Or.inl h1.symm) h
    · constructor
      · intro _
        rintro (hc | hm)
        · exact h1 hc.symm
        · exact (ih.mp h2) hm
      · intro _; rfl
    · have hr : 0 ≤ indexSpace rest := by
        rcases indexSpace_cases rest with h | h
        · exact absurd h h2
        · exact h
      have hm : ' ' ∈ rest := by
        by_contra hc
        exact h2 (ih.mpr hc)
      constructor
      · intro h; exact absurd h (by omega)
      · intro h; exact absurd (Or.inr hm) h

theorem indexSpace_spec (l : List Char) (h : ' ' ∈ l) :
    ∃ j : Nat, indexSpace l = (j : Int) ∧ l[j]? = some ' ' ∧
      ∀ k : Nat, k < j → l[k]? ≠ some ' ' := by
  induction l with
  | nil => cases h
  | cons c rest ih =>
    by_cases h1 : c = ' '
    · refine ⟨0, by simp [indexSpace, h1], by simp [h1], ?_⟩
      intro k hk
      exact absurd hk (by omega)
    · have hm : ' ' ∈ rest := by
        rcases List.mem_cons.mp h with hc | hm
        · exact absurd hc.symm h1
        · exact hm
      obtain ⟨j, hj, hget, hmin⟩ := ih hm
      have hne : indexSpace rest ≠ -1 := by rw [hj]; omega
      refine ⟨j + 1, ?_, by simpa using hget, ?_⟩
      · simp only [indexSpace, if_neg h1, if_neg hne, hj]
        push_cast
        ring
      · intro k hk
        cases k with
        | zero =>
          simp only [List.getElem?_cons_zero]
          intro hc
          exact h1 (by injection hc)
        | succ k2 =>
          simp only [List.getElem?_cons_succ]
          exact hmin k2 (by omega)

theorem lastIndexSpace_cases (l : List Char) :
    lastIndexSpace l = -1 ∨ 0 ≤ lastIndexSpace l := by
  induction l with
  | nil => exact Or.inl rfl
  | cons c rest ih =>
    simp only [lastIndexSpace]
    split_ifs with h1 h2
    · right; omega
    · right; omega
    · exact Or.inl rfl

theorem lastIndexSpace_neg_iff (l : List Char) : lastIndexSpace l = -1 ↔ ' ' ∉ l := by
  induction l with
  | nil => simp [lastIndexSpace]
  | cons c rest ih =>
    simp only [lastIndexSpace, List.mem_cons]
    split_ifs with h1 h2
    · have hm : ' ' ∈ rest := by
        by_contra hc
        rw [ih.mpr hc] at h1
        exact absurd h1 (by decide)
      constructor
      · intro h; exact absurd h (by omega)
      · intro h; exact absurd (Or.inr hm) h
    · constructor
      · intro h; exact absurd h (by decide)
      · intro h; exact absurd (Or.inl h2.symm) h
    · constructor
      · intro _
        rintro (hc | hm)
        · exact h2 hc.symm
        · have hne : lastIndexSpace rest ≠ -1 := fun he => (ih.mp he) hm
          rcases lastIndexSpace_cases rest with he | he
          · exact hne he
          · exact h1 he
      · intro _; rfl

theorem lastIndexSpace_spec (l : List Char) (h : ' ' ∈ l) :
    ∃ j : Nat, lastIndexSpace l = (j : Int) ∧ l[j]? = some ' ' ∧
      ∀ k : Nat, j < k → l[k]? ≠ some ' ' := by
  induction l with
  | nil => cases h
  | cons c rest ih =>
    by_cases hm : ' ' ∈ rest
    · obtain ⟨j, hj, hget, hmax⟩ := ih hm
      refine ⟨j + 1, ?_, by simpa using hget, ?_⟩
      · simp only [lastIndexSpace, hj]
        rw [if_pos (by omega : (0 : Int) ≤ (j : Int))]
        omega
      · intro k hk
        cases k with
        | zero => exact absurd hk (by omega)
        | succ k2 =>
          simp only [List.getElem?_cons_succ]
          exact hmax k2 (by omega)
    · have hneg : lastIndexSpace rest = -1 := (lastIndexSpace_neg_iff rest).mpr hm
      have hc : c = ' ' := by
        rcases List.mem_cons.mp h with h1 | h2
        · exact h1.symm
        · exact absurd h2 hm
      refine ⟨0, ?_, by simp [hc], ?_⟩
      · simp only [lastIndexSpace, hneg, if_pos hc]
        norm_num
      · intro k hk
        cases k with
        | zero => exact absurd hk (by omega)
        | succ k2 =>
          simp only [List.getElem?_cons_succ]
          intro hx
          exact hm (List.getElem?_mem hx)

/-! ## Helper lemmas on the trimming helpers -/

theorem trimRight_append_rest (l : List Char) :
    ∃ sfx, l = trimRight l ++ sfx := by
  refine ⟨(l.reverse.takeWhile (fun c => decide (c = ' '))).reverse, ?_⟩
  conv_lhs => rw [← List.reverse_reverse l,
    ← List.takeWhile_append_dropWhile (fun c => decide (c = ' ')) l.reverse]
  rw [List.reverse_append]
  rfl

theorem trimRight_getElem? (l : List Char) (j : Nat) (h : j < (trimRight l).length) :
    (trimRight l)[j]? = l[j]? := by
  obtain ⟨sfx, hs⟩ := trimRight_append_rest l
  conv_rhs => rw [hs]
  rw [List.getElem?_append_left h]

theorem trimRight_length_le (l : List Char) : (trimRight l).length ≤ l.length := by
  obtain ⟨sfx, hs⟩ := trimRight_append_rest l
  conv_rhs => rw [hs]
  simp

theorem trimLeft_run (l : List Char) :
    (∀ k : Nat, k < l.length - (trimLeft l).length → l[k]? = some ' ') ∧
    (∀ c, l[l.length - (trimLeft l).length]? = some c → c ≠ ' ') := by
  induction l with
  | nil => exact ⟨fun k hk => absurd hk (by simp [trimLeft]), fun c hc => by simp at hc⟩
  | cons c rest ih =>
    by_cases hc : c = ' '
    · have ht : trimLeft (c :: rest) = trimLeft rest := by
        simp [trimLeft, List.dropWhile, hc]
      have hle : (trimLeft rest).length ≤ rest.length :=
        (List.dropWhile_sublist _).length_le
      have hlen : (c :: rest).length - (trimLeft (c :: rest)).length =
          (rest.length - (trimLeft rest).length) + 1 := by
        rw [ht]
        simp only [List.length_cons]
        omega
      constructor
      · intro k hk
        rw [hlen] at hk
        cases k with
        | zero => simpa using hc
        | succ k2 =>
          simp only [List.getElem?_cons_succ]
          exact ih.1 k2 (by omega)
      · intro c2 hc2
        rw [hlen] at hc2
        simp only [List.getElem?_cons_succ] at hc2
        exact ih.2 c2 hc2
    · have ht : trimLeft (c :: rest) = c :: rest := by
        simp [trimLeft, List.dropWhile, hc]
      have hlen : (c :: rest).length - (trimLeft (c :: rest)).length = 0 := by
        rw [ht]
        omega
      constructor
      · intro k hk
        rw [hlen] at hk
        exact absurd hk (by omega)
      · intro c2 hc2
        rw [hlen] at hc2
        have hcc : c2 = c := by
          simp only [List.getElem?_cons_zero] at hc2
          exact (Option.some.inj hc2).symm
        intro he
        exact hc (by rw [← hcc, he])

/-! ## Claim theorems -/

/-- C1: a callback result is applied to the renderer exactly when its
timestamp is not older than the most recently issued invocation's
timestamp, and older results are silently dropped; in the concrete
scenario (A issued at 0 completing at 100, B issued at 50 completing at
60) only B's output is ever rendered. -/
theorem c1_staleness_discard :
    (∀ (tr : List LoopEvent) (ts : Nat) (out : String),
      (loopRun loopInit (tr ++ [LoopEvent.result ts out])).rendered =
        if ts < lastIssued tr then (loopRun loopInit tr).rendered
        else out :: (loopRun loopInit tr).rendered) ∧
    loopRun loopInit [LoopEvent.issue 0, LoopEvent.issue 50,
      LoopEvent.result 50 "B", LoopEvent.result 0 "A"] = ⟨50, ["B"]⟩ := by
  constructor
  · intro tr ts out
    rw [loopRun_append]
    have hlu : (loopRun loopInit tr).lastUpdate = lastIssued tr := by
      rw [loopRun_lastUpdate]; rfl
    simp only [loopStep, hlu]
    split <;> rfl
  · decide

/-- C2: the cursor invariant `0 ≤ cursor ≤ len(text)` is violated by the
code: from the initial state, typing `a`, space, arrow-left and then Alt-F
(word-forward) leaves the cursor at 3 while the text has length 2, because
`nextWordIndex` returns `pos + spaces + 1` past the end when the cursor
sits on a trailing run of spaces. -/
theorem c2_cursor_invariant_broken :
    runKeys promptInit [Key.ch 'a', Key.spaceKey, Key.arrowLeft, Key.altF] =
      some ⟨['a', ' '], 3, 4, false⟩ ∧
    ((⟨['a', ' '], 3, 4, false⟩ : Prompt).text.length : Int) <
      (⟨['a', ' '], 3, 4, false⟩ : Prompt).pos := by
  decide

/-- C3 counterexample: on the normal Enter exit path the terminal restore
runs twice (once from the deferred `cleanupFunc`, once from the directly
deferred `term.Restore`), not exactly once as claimed. -/
theorem c3_counterexample :
    restoreCount ExitPath.enterExit = 2 ∧ restoreCount ExitPath.enterExit ≠ 1 := by
  decide

/-- C3 amended: terminal raw-mode restoration runs at least once on every
exit path — exactly once on the interrupt path and exactly twice on the
normal Enter path, because both the direct defer and the deferred cleanup
function call `term.Restore`. -/
theorem c3_restore_runs :
    restoreCount ExitPath.enterExit = 2 ∧
    restoreCount ExitPath.interruptExit = 1 ∧
    ∀ pth : ExitPath, 1 ≤ restoreCount pth := by
  refine ⟨rfl, rfl, ?_⟩
  intro pth
  cases pth <;> decide

/-- C4 counterexample: `backspace` does not clamp `n` to the cursor — on
text `"a"` with cursor 1, deleting 2 characters panics (Go slice bound
`text[:-1]`), modeled as `none`, while the spec's clamping semantics would
produce the empty buffer. -/
theorem c4_counterexample :
    backspace ⟨['a'], 1, 0, false⟩ 2 = none ∧
    backspaceSpec ⟨['a'], 1, 0, false⟩ 2 = ⟨[], 0, 0, false⟩ := by
  decide

/-- C5 counterexample: on buffer `"ab"` with cursor 0 there is no space at
or after the cursor; the spec says the query returns end-of-text (2), but
the code returns `-1 + pos = -1` because the `i != 0` branch already
captures the not-found value `-1` and the `i == -1` arm is dead code. -/
theorem c5_counterexample :
    nextWordIndexP "ab".toList 0 = -1 ∧
    nextWordIndexSpec "ab".toList 0 = 2 ∧
    nextWordIndexP "ab".toList 0 ≠ nextWordIndexSpec "ab".toList 0 := by
  decide

/-- C6 counterexample: with 7 candidates and `MaxShown = 7`, seven
consecutive Tab invocations from the no-selection state leave the selection
index at 6 (the last candidate), not 0: the first Tab press moves from
no-selection to index 0, so a full wrap needs eight presses. -/
theorem c6_counterexample :
    tabRun cfg7 closestN0 cmInit 7 ≠ some ⟨cfg7.content.take 7, 0⟩ ∧
    tabRun cfg7 closestN0 cmInit 7 = some ⟨content7, 6⟩ := by
  decide

/-- C7: with an empty candidate set, pressing Tab once sets the selection
index to 0 while `topN` stays empty, and the following Enter invocation
panics on `topN[lastSelected]` (index out of range, modeled `none`) before
`OnSelect` is ever called — contradicting the code's own documentation
that `onSelect` is called when the user presses Enter. -/
theorem c7_enter_panics_on_empty_data :
    cbStep cfgE closestN0 cmInit "" false false = some (⟨[], -1⟩, "", []) ∧
    cbStep cfgE closestN0 ⟨[], -1⟩ "" true false = some (⟨[], 0⟩, "", []) ∧
    cbStep cfgE closestN0 ⟨[], 0⟩ "panic" false true = none := by
  decide

/-- C4 amended: `backspace(n)`, for `n ≥ 0` on an in-bounds state, is a
no-op when `n = 0` or when the cursor is 0; for `0 < n ≤ cursor` it
removes exactly the `n` characters before the cursor and moves the cursor
back by `n`; but for `n > cursor > 0` it does not clamp — it faults (Go
slice panic), modeled as `none`. -/
theorem c4_backspace_behavior :
    ∀ (p : Prompt) (n : Int), 0 ≤ n → 0 ≤ p.pos → p.pos ≤ (p.text.length : Int) →
      (n = 0 → backspace p n = some (p, "")) ∧
      (p.pos = 0 → backspace p n = some (p, "")) ∧
      (0 < n → n ≤ p.pos → ∃ out,
        backspace p n = some
          ({ p with
              text := p.text.take (p.pos - n).toNat ++ p.text.drop p.pos.toNat,
              pos := p.pos - n }, out)) ∧
      (0 < p.pos → p.pos < n → backspace p n = none) := by
  intro p n hn hpos hlen
  refine ⟨?_, ?_, ?_, ?_⟩
  · intro h
    simp [backspace, h]
  · intro h
    simp only [backspace, h]
    split <;> rfl
  · intro h1 h2
    have hn0 : ¬(n = 0) := by omega
    have hp0 : ¬(p.pos = 0) := by omega
    refine ⟨("\x1b[" ++ toString n ++ "D") ++ "\x1b[s" ++ "\x1b[K" ++
      String.mk (p.text.drop p.pos.toNat) ++ "\x1b[u", ?_⟩
    simp only [backspace, if_neg hn0, if_neg hp0]
    rw [if_pos (by refine ⟨by omega, by omega, by omega, by omega⟩)]
    simp only [cursorLeft, if_neg hp0]
  · intro h1 h2
    have hn0 : ¬(n = 0) := by omega
    have hp0 : ¬(p.pos = 0) := by omega
    simp only [backspace, if_neg hn0, if_neg hp0]
    rw [if_neg (by omega)]

/-- C4 witness: at text `"ab"`, cursor 2, `backspace 1` removes the byte
before the cursor. -/
theorem c4_backspace_behavior_witness :
    ∃ out, backspace ⟨['a', 'b'], 2, 0, false⟩ 1 = some (⟨['a'], 1, 0, false⟩, out) := by
  have h := (c4_backspace_behavior ⟨['a', 'b'], 2, 0, false⟩ 1
    (by decide) (by decide) (by decide)).2.2.1 (by decide) (by decide)
  simpa using h

/-- C5 amended: `nextWordIndex` returns `pos + j` when the nearest space
at or after the cursor sits at offset `j > 0` into `text[pos:]`; it
returns `pos - 1` (not end-of-text) when no space exists at or after the
cursor; and when the cursor is directly on a space it returns the index of
the first non-space character after that run of spaces (not the nearest
space beyond the run). -/
theorem c5_next_word_behavior :
    ∀ (text : List Char) (pos : Nat), pos ≤ text.length →
      (' ' ∉ text.drop pos → nextWordIndexP text pos = (pos : Int) - 1) ∧
      (∀ j : Nat, 0 < j → (text.drop pos)[j]? = some ' ' →
        (∀ k : Nat, k < j → (text.drop pos)[k]? ≠ some ' ') →
        nextWordIndexP text pos = (pos : Int) + j) ∧
      ((text.drop pos)[0]? = some ' ' →
        nextWordIndexP text pos =
          (pos : Int) + ((text.drop pos).length - (trimLeft (text.drop pos)).length) ∧
        (∀ k : Nat, k < (text.drop pos).length - (trimLeft (text.drop pos)).length →
          (text.drop pos)[k]? = some ' ') ∧
        (∀ c, (text.drop pos)[(text.drop pos).length -
            (trimLeft (text.drop pos)).length]? = some c → c ≠ ' ')) := by
  intro text pos hpos
  have hb : ((text.take pos).length : Int) = (pos : Int) := by
    simp [List.length_take, Nat.min_eq_left hpos]
  refine ⟨?_, ?_, ?_⟩
  · intro hnm
    have hneg : indexSpace (text.drop pos) = -1 := (indexSpace_neg_iff _).mpr hnm
    simp only [nextWordIndexP, hneg]
    rw [if_pos (by decide : ¬((-1 : Int) = 0))]
    omega
  · intro j hj0 hget hmin
    have hmem : ' ' ∈ text.drop pos := List.getElem?_mem hget
    obtain ⟨j0, hj0i, hget0, hmin0⟩ := indexSpace_spec _ hmem
    have hjj : j0 = j := by
      by_contra hne
      rcases Nat.lt_or_ge j0 j with hlt | hge
      · exact hmin j0 hlt hget0
      · exact hmin0 j (by omega) hget
    subst hjj
    simp only [nextWordIndexP, hj0i]
    rw [if_pos (by omega : ¬((j0 : Int) = 0))]
    omega
  · intro h0
    have hi0 : indexSpace (text.drop pos) = 0 := by
      cases hfwd : text.drop pos with
      | nil => rw [hfwd] at h0; simp at h0
      | cons c rest =>
        rw [hfwd] at h0
        simp only [List.getElem?_cons_zero] at h0
        have hce : c = ' ' := Option.some.inj h0
        simp [indexSpace, hce]
    have hle : (trimLeft (text.drop pos)).length ≤ (text.drop pos).length :=
      (List.dropWhile_sublist _).length_le
    refine ⟨?_, (trimLeft_run _).1, (trimLeft_run _).2⟩
    simp only [nextWordIndexP, hi0]
    rw [if_neg (by decide : ¬¬((0 : Int) = 0))]
    rw [if_neg (by decide : ¬((0 : Int) = -1))]
    omega

/-- C5 witness: on `"a b"` with cursor 0 the nearest space is at offset 1
into the remaining text, so the query returns 1. -/
theorem c5_next_word_behavior_witness :
    nextWordIndexP "a b".toList 0 = (0 : Int) + (1 : Nat) := by
  exact (c5_next_word_behavior "a b".toList 0 (by decide)).2.1 1
    (by decide) (by decide) (by decide)

/-- C6 amended: with 7 candidates and `MaxShown = 7`, it takes eight — not
seven — consecutive Tab invocations from the initial no-selection state to
bring the selection index (back) to 0: the first press selects index 0 and
each further press advances by one, wrapping after the last candidate. -/
theorem c6_eight_tabs_wrap :
    ∀ (cfg : CMConfig) (closestN : String → Nat → List String),
      cfg.content.length = 7 → cfg.maxShown = 7 →
      tabRun cfg closestN cmInit 8 = some ⟨cfg.content.take 7, 0⟩ := by
  intro cfg cn h1 h2
  simp [tabRun, cbStep, cmInit, h1, h2]

/-- C6 witness: the eight-press wrap evaluated on a concrete 7-candidate
configuration. -/
theorem c6_eight_tabs_wrap_witness :
    tabRun cfg7 closestN0 cmInit 8 = some ⟨cfg7.content.take 7, 0⟩ := by
  exact c6_eight_tabs_wrap cfg7 closestN0 (by decide) (by decide)

/-- C8: `lastWordIndex` on buffer `"this is a test "` with the cursor at
the end returns 9 — the space separating `"a"` from `"test"`, i.e. the
boundary before `"test"`, the trailing space being ignored; in general the
result is the greatest index of a space in the right-space-trimmed prefix
`text[:pos]` (the nearest space strictly before the cursor once trailing
spaces are dropped), and `-1` when that trimmed prefix has no space. -/
theorem c8_word_boundary_before :
    lastWordIndexP "this is a test ".toList 15 = 9 ∧
    ∀ (text : List Char) (pos : Nat), pos ≤ text.length →
      (lastWordIndexP text pos = -1 ↔ ' ' ∉ trimRight (text.take pos)) ∧
      ∀ j : Nat, lastWordIndexP text pos = (j : Int) →
        text[j]? = some ' ' ∧ j < pos ∧
        ∀ k : Nat, j < k → k < (trimRight (text.take pos)).length →
          text[k]? ≠ some ' ' := by
  refine ⟨by decide, ?_⟩
  intro text pos hpos
  constructor
  · exact lastIndexSpace_neg_iff (trimRight (text.take pos))
  · intro j hj
    simp only [lastWordIndexP] at hj
    have hmem : ' ' ∈ trimRight (text.take pos) := by
      by_contra hc
      have hneg := (lastIndexSpace_neg_iff (trimRight (text.take pos))).mpr hc
      rw [hj] at hneg
      omega
    obtain ⟨j0, hj0, hget, hmax⟩ := lastIndexSpace_spec _ hmem
    have hjj : j0 = j := by
      rw [hj] at hj0
      omega
    subst hjj
    have hjlen : j0 < (trimRight (text.take pos)).length := by
      rcases List.getElem?_eq_some_iff.mp hget with ⟨hl, _⟩
      exact hl
    have hjpos : j0 < pos := by
      have h2 : j0 < (text.take pos).length :=
        lt_of_lt_of_le hjlen (trimRight_length_le _)
      simp only [List.length_take] at h2
      omega
    refine ⟨?_, hjpos, ?_⟩
    · rw [trimRight_getElem? _ _ hjlen] at hget
      rw [List.getElem?_take_of_lt hjpos] at hget
      exact hget
    · intro k hk hklen
      have h2 := hmax k hk
      rw [trimRight_getElem? _ _ hklen] at h2
      have hkpos : k < pos := by
        have h3 : k < (text.take pos).length :=
          lt_of_lt_of_le hklen (trimRight_length_le _)
        simp only [List.length_take] at h3
        omega
      rw [List.getElem?_take_of_lt hkpos] at h2
      exact h2

/-- C8 witness: the concrete boundary value, and the `-1` case exercised
on a spaceless buffer. -/
theorem c8_word_boundary_before_witness :
    lastWordIndexP "this is a test ".toList 15 = 9 ∧
    (lastWordIndexP "ab".toList 2 = -1 ↔ ' ' ∉ trimRight ("ab".toList.take 2)) := by
  exact ⟨c8_word_boundary_before.1,
    (c8_word_boundary_before.2 "ab".toList 2 (by decide)).1⟩

/-- C9: painting the empty string is a complete no-op — the prompt state
(including `writtenLineCnt`) is unchanged and not a single byte, escape
sequence included, is emitted. -/
theorem c9_print_empty_noop :
    ∀ (p : Prompt) (padding : Nat), printP p [] padding = (p, "") := by
  intro p padding
  simp [printP]

/-- C10: a nil callback is replaced by a constant empty-string callback in
`Wait` (three-argument form) and `Start` (older two-argument form), so no
nil function is ever invoked, every invocation returns the empty string,
and rendering that result paints nothing. -/
theorem c10_nil_callback_safe :
    (∀ s t e, waitCallback none s t e = "") ∧
    (∀ f, waitCallback (some f) = f) ∧
    (∀ s t, startCallback none s t = "") ∧
    (∀ (p : Prompt) (padding : Nat) s t e,
      printP p (waitCallback none s t e).toList padding = (p, "")) := by
  refine ⟨fun s t e => rfl, fun f => rfl, fun s t => rfl, ?_⟩
  intro p padding s t e
  simp [waitCallback, printP]

end RTPrompt

